import Mathlib

/-!
Shallow embedding of the Oxford ITC503 temperature-controller driver
(`pymeasure/instruments/oxfordinstruments/itc503.py`): the
`wait_for_temperature` stability-monitor loop and the `program_sweep`
sweep-table programmer, together with the reply-parsing `get_process`
functions of the properties they rely on.

Machine floats are modelled as rationals; instrument I/O is modelled by
explicit input streams (for reads) and an emitted event trace (for writes).
-/

namespace ITC503

/-- Python `int()` applied to a rational: truncation toward zero. -/
def pyTrunc (q : ℚ) : ℤ := if 0 ≤ q then ⌊q⌋ else ⌈q⌉

/-- Python / numpy `round` on a rational: round half to even. -/
def roundHalfEven (q : ℚ) : ℤ :=
  if q - ⌊q⌋ < 1 / 2 then ⌊q⌋
  else if 1 / 2 < q - ⌊q⌋ then ⌊q⌋ + 1
  else if Even ⌊q⌋ then ⌊q⌋ else ⌊q⌋ + 1

/-- `numpy.linspace(start, stop, num)` (endpoint included). -/
def linspace (start stop : ℚ) (num : ℕ) : List ℚ :=
  if num = 0 then []
  else if num = 1 then [start]
  else (List.range num).map (fun i : ℕ => start + (i : ℚ) * (stop - start) / ((num : ℚ) - 1))

/-- Inner scan of `numpy.interp`: `(xa, fa)` is the rightmost sample point
already known to satisfy `xa ≤ x`; the remaining points follow. -/
def interpGo : List (ℚ × ℚ) → ℚ × ℚ → ℚ → ℚ
  | [], p, _ => p.2
  | (xb, fb) :: rest, (xa, fa), x =>
      if x < xb then
        if xb = xa then fa else fa + (x - xa) * (fb - fa) / (xb - xa)
      else interpGo rest (xb, fb) x

/-- `numpy.interp(x, xp, fp)` at a single point: clamps outside the sample
range, linear interpolation inside, and on an exact match with a repeated
`xp` value takes the last occurrence. -/
def interpAt (pts : List (ℚ × ℚ)) (x : ℚ) : ℚ :=
  match pts with
  | [] => 0
  | (x0, f0) :: rest => if x < x0 then f0 else interpGo rest (x0, f0) x

/-- One resampling pass of `program_sweep`:
`numpy.interp(steps, numpy.round(numpy.linspace(1, steps.size, arr.size)), arr)`. -/
def interpResampled (numSteps : ℕ) (stepsArr : List ℚ) (arr : List ℚ) : List ℚ :=
  let interpolator :=
    (linspace 1 numSteps arr.length).map (fun q => ((roundHalfEven q : ℤ) : ℚ))
  stepsArr.map (fun x => interpAt (interpolator.zip arr) x)

/-- A write issued to the instrument by `program_sweep`. -/
inductive WriteEvent where
  | sweepStatus (v : ℕ)
  | xPointer (v : ℕ)
  | yPointer (v : ℕ)
  | sweepTable (v : ℚ)
deriving DecidableEq, Repr

/-- The exception paths of `program_sweep`. -/
inductive SweepError where
  /-- `AttributeError("Oxford ITC503 not in remote control mode")`. -/
  | notRemote
  /-- `ValueError` from `numpy.interp` when the sample-point array is empty. -/
  | emptyInterp
  /-- `ValueError` from `numpy.pad` when the pad amount `16 - size` is negative. -/
  | negativePad
  /-- `IndexError` from `temperatures[-1]` on an empty interpolated array. -/
  | emptyIndex
deriving DecidableEq, Repr

/-- The per-slot write block of the table-writing loop: `x_pointer = line`,
then for each field `y_pointer = field; sweep_table = value`. -/
def slotBlock (line : ℕ) (setpoint sweep hold : ℚ) : List WriteEvent :=
  [.xPointer line, .yPointer 1, .sweepTable setpoint,
   .yPointer 2, .sweepTable sweep, .yPointer 3, .sweepTable hold]

/-- The table-writing loop of `program_sweep`
(`for line, (setpoint, sweep, hold) in enumerate(zip(...), 1)`). -/
def tableWrites : List (ℚ × ℚ × ℚ) → ℕ → List WriteEvent
  | [], _ => []
  | (setpoint, sweep, hold) :: rest, line =>
      slotBlock line setpoint sweep hold ++ tableWrites rest (line + 1)

/-- `ITC503.program_sweep`, returning the trace of writes issued to the
instrument and the exception raised, if any.  `mode` is the string the
`control_mode` getter reported. -/
def program_sweep (mode : String) (temperatures sweep_time hold_time : List ℚ)
    (steps? : Option ℕ) : List WriteEvent × Option SweepError :=
  if mode.startsWith "R" then
    let trace0 : List WriteEvent := [.sweepStatus 0]
    let steps := steps?.getD temperatures.length
    let stepsArr := linspace 1 steps steps
    if temperatures.length = 0 then (trace0, some .emptyInterp)
    else
      let temperaturesI := interpResampled steps stepsArr temperatures
      if sweep_time.length = 0 then (trace0, some .emptyInterp)
      else
        let sweep_timeI := interpResampled steps stepsArr sweep_time
        if hold_time.length = 0 then (trace0, some .emptyInterp)
        else
          let hold_timeI := interpResampled steps stepsArr hold_time
          if (16 : ℤ) - temperaturesI.length < 0 then (trace0, some .negativePad)
          else if temperaturesI.length = 0 then (trace0, some .emptyIndex)
          else
            let padding := 16 - temperaturesI.length
            let temperaturesP :=
              temperaturesI ++ List.replicate padding (temperaturesI.getLastD 0)
            let sweep_timeP := sweep_timeI ++ List.replicate padding 0
            let hold_timeP := hold_timeI ++ List.replicate padding 0
            (trace0 ++ tableWrites (temperaturesP.zip (sweep_timeP.zip hold_timeP)) 1,
             none)
  else ([], some .notRemote)

lemma startsWith_R_RU : "RU".startsWith "R" = true := by with_unfolding_all decide

lemma startsWith_R_LL : "LL".startsWith "R" = false := by with_unfolding_all decide

lemma startsWith_R_LU : "LU".startsWith "R" = false := by with_unfolding_all decide

/-- The parameters of `wait_for_temperature`. -/
structure WaitParams where
  error : ℚ
  timeout : ℚ
  check_interval : ℚ
  stability_interval : ℚ
  thermalize_interval : ℚ
  max_comm_errors : Option ℕ
deriving DecidableEq, Repr

/-- One iteration of the polling loop, as seen from the outside: the result
of reading `temperature_error` (`none` models the `ValueError` of a failed
read), the value of `time() - t0` at the timeout check, and the value
`should_stop()` would return. -/
structure PollInput where
  sample : Option ℚ
  elapsed : ℚ
  stop : Bool
deriving DecidableEq, Repr

/-- The mutable locals of one `wait_for_temperature` call. -/
structure LoopState where
  stable_intervals : ℕ
  attempt : ℕ
  comm_errors : ℕ
deriving DecidableEq, Repr

/-- `number_of_intervals = int(stability_interval / check_interval)`. -/
def number_of_intervals (p : WaitParams) : ℤ :=
  pyTrunc (p.stability_interval / p.check_interval)

/-- How one sample changes the `stable_intervals` counter: a failed read
leaves it untouched, an in-band sample increments it, an out-of-band sample
resets it to zero. -/
def stepCount (err : ℚ) (c : ℕ) : Option ℚ → ℕ
  | none => c
  | some v => if |v| < err then c + 1 else 0

/-- The body of one loop iteration up to the exit checks: the
`try/except/else` block updating the counters. -/
def pollStep (p : WaitParams) (st : LoopState) (inp : PollInput) : LoopState :=
  match inp.sample with
  | none => { st with comm_errors := st.comm_errors + 1 }
  | some temp_error =>
      if |temp_error| < p.error then
        { st with stable_intervals := st.stable_intervals + 1 }
      else
        { st with stable_intervals := 0, attempt := st.attempt + 1 }

/-- `max_comm_errors is not None and comm_errors > max_comm_errors`. -/
def commExceeded (p : WaitParams) (st : LoopState) : Bool :=
  match p.max_comm_errors with
  | none => false
  | some m => m < st.comm_errors

/-- How the polling loop of `wait_for_temperature` ended. -/
inductive LoopResult where
  /-- `break`: `stable_intervals >= number_of_intervals`. -/
  | broke (attempt : ℕ)
  /-- `raise TimeoutError(...)`. -/
  | timeoutError
  /-- `raise ValueError("Too many communication errors have occurred.")`. -/
  | commError
  /-- `return` on `should_stop()`. -/
  | cancelled
  /-- The supplied input stream ended while the loop would keep polling. -/
  | exhausted (st : LoopState)
deriving DecidableEq, Repr

/-- The `while True` polling loop of `wait_for_temperature`; `pollStep p st
inp` plays the role of the state after this iteration's counter updates. -/
def pollLoop (p : WaitParams) (st : LoopState) : List PollInput → LoopResult
  | [] => .exhausted st
  | inp :: rest =>
      if number_of_intervals p ≤ ((pollStep p st inp).stable_intervals : ℤ) then
        .broke (pollStep p st inp).attempt
      else if 0 < p.timeout ∧ p.timeout < inp.elapsed then .timeoutError
      else if commExceeded p (pollStep p st inp) then .commError
      else if inp.stop then .cancelled
      else pollLoop p (pollStep p st inp) rest

/-- How a whole `wait_for_temperature` call ended. -/
inductive WaitOutcome where
  /-- Normal return straight after the loop (`attempt == 0`). -/
  | stabilizedImmediate
  /-- Normal return after the full thermalization wait. -/
  | stabilizedThermalized
  /-- Normal return from `should_stop()` inside the polling loop. -/
  | cancelledWhileWaiting
  /-- Normal return from `should_stop()` inside the thermalization wait. -/
  | cancelledWhileThermalizing
  /-- `TimeoutError` raised to the caller. -/
  | timeoutError
  /-- `ValueError` (communication-error budget) raised to the caller. -/
  | commError
  /-- A supplied input stream ended while the call would keep running. -/
  | ranOut
deriving DecidableEq, Repr

/-- The post-stability wait `while time() < t1: sleep(...); if should_stop():
return`; each entry of the stream is a `time()` reading for the `while`
condition together with the following `should_stop()` value. -/
def thermalizeLoop (t1 : ℚ) : List (ℚ × Bool) → WaitOutcome
  | [] => .ranOut
  | (clk, stop) :: rest =>
      if clk < t1 then
        if stop then .cancelledWhileThermalizing else thermalizeLoop t1 rest
      else .stabilizedThermalized

/-- `ITC503.wait_for_temperature` over explicit input streams: `polls` feeds
the main loop, `breakTime` is the `time()` reading taken when computing
`t1 = time() + thermalize_interval`, and `thermPolls` feeds the
thermalization wait. -/
def wait_for_temperature (p : WaitParams) (polls : List PollInput)
    (breakTime : ℚ) (thermPolls : List (ℚ × Bool)) : WaitOutcome :=
  match pollLoop p ⟨0, 0, 0⟩ polls with
  | .broke attempt =>
      if attempt = 0 then .stabilizedImmediate
      else thermalizeLoop (breakTime + p.thermalize_interval) thermPolls
  | .timeoutError => .timeoutError
  | .commError => .commError
  | .cancelled => .cancelledWhileWaiting
  | .exhausted _ => .ranOut

/-- The running value of the `stable_intervals` counter after each loop
iteration, for a given sample stream. -/
def stableCounts (err : ℚ) (c : ℕ) : List (Option ℚ) → List ℕ
  | [] => []
  | s :: rest => stepCount err c s :: stableCounts err (stepCount err c s) rest

/-- The claim's notion of stability: the successfully-read samples contain a
contiguous run of at least `n` values inside the acceptance band (failed
reads are transparent: they neither break nor extend a run). -/
def specHasRun (err : ℚ) (n : ℤ) (samples : List (Option ℚ)) : Prop :=
  ∃ pre seg post, samples.filterMap id = pre ++ seg ++ post ∧
    (∀ v ∈ seg, |v| < err) ∧ n ≤ (seg.length : ℤ)

/-- Number of failed reads in a poll stream. -/
def commFailures (polls : List PollInput) : ℕ :=
  polls.countP (fun i => i.sample.isNone)

/-- The value of a decimal digit character, `none` otherwise. -/
def digitVal? (c : Char) : Option ℕ :=
  if c.isDigit then some (c.toNat - 48) else none

/-- The natural number denoted by a digit string (most significant first);
`none` as soon as a non-digit appears.  The empty string denotes `0`; callers
guard against it where Python would reject it. -/
def digitsVal? (cs : List Char) : Option ℕ :=
  cs.foldl
    (fun acc c =>
      match acc, digitVal? c with
      | some a, some d => some (a * 10 + d)
      | _, _ => none)
    (some 0)

/-- Python `float()` on an unsigned decimal literal `digits [. digits]`
(the forms the instrument replies use); `none` models the `ValueError` on
anything else. -/
def parseDecimal? (cs : List Char) : Option ℚ :=
  let intPart := cs.takeWhile (fun c => c.isDigit)
  let rest := cs.dropWhile (fun c => c.isDigit)
  match rest with
  | [] =>
      if intPart.isEmpty then none
      else (digitsVal? intPart).map (fun n => mkRat n 1)
  | '.' :: fracPart =>
      if fracPart.all (fun c => c.isDigit) ∧ ¬(intPart.isEmpty ∧ fracPart.isEmpty) then
        match digitsVal? intPart, digitsVal? fracPart with
        | some n, some f =>
            some (mkRat (n * 10 ^ fracPart.length + f) (10 ^ fracPart.length))
        | _, _ => none
      else none
  | _ => none

/-- Python `float()` with an optional sign, on the decimal forms above. -/
def pyFloat? (cs : List Char) : Option ℚ :=
  match cs with
  | '-' :: rest => (parseDecimal? rest).map (fun q => -q)
  | '+' :: rest => parseDecimal? rest
  | _ => parseDecimal? cs

/-- The getter of the `temperature_error` measurement property:
`get_process=lambda v: float(v[1:])` applied to the instrument reply. -/
def temperature_error_get (v : List Char) : Option ℚ :=
  pyFloat? (v.drop 1)

/-- The getter of the `control_mode` property: `int(v[5:6])` mapped back
through `values={"LL": 0, "RL": 1, "LU": 2, "RU": 3}`. -/
def control_mode_get (v : List Char) : Option String :=
  match v.drop 5 with
  | [] => none
  | c :: _ =>
      match digitVal? c with
      | some 0 => some "LL"
      | some 1 => some "RL"
      | some 2 => some "LU"
      | some 3 => some "RU"
      | _ => none

/-! ### Supporting lemmas -/

lemma pollStep_stable (p : WaitParams) (st : LoopState) (inp : PollInput) :
    (pollStep p st inp).stable_intervals = stepCount p.error st.stable_intervals inp.sample := by
  cases h : inp.sample <;> simp [pollStep, stepCount, h]
  split <;> rfl

lemma pollStep_comm (p : WaitParams) (st : LoopState) (inp : PollInput) :
    (pollStep p st inp).comm_errors =
      if inp.sample.isNone then st.comm_errors + 1 else st.comm_errors := by
  cases h : inp.sample <;> simp [pollStep, h]
  split <;> rfl

lemma pollLoop_append (p : WaitParams) (st : LoopState) (pre rest : List PollInput) :
    pollLoop p st (pre ++ rest) =
      match pollLoop p st pre with
      | .exhausted st' => pollLoop p st' rest
      | r => r := by
  induction pre generalizing st with
  | nil => rfl
  | cons inp tl ih =>
      simp only [List.cons_append, pollLoop]
      split
      · rfl
      · split
        · rfl
        · split
          · rfl
          · split
            · rfl
            · exact ih _

lemma pollLoop_ne_timeout (p : WaitParams) (hT : p.timeout = 0) :
    ∀ (polls : List PollInput) (st : LoopState), pollLoop p st polls ≠ .timeoutError := by
  intro polls
  induction polls with
  | nil => intro st; simp [pollLoop]
  | cons inp tl ih =>
      intro st
      simp only [pollLoop, hT]
      split
      · simp
      · split
        · rename_i h
          exact absurd h.1 (lt_irrefl 0)
        · split
          · simp
          · split
            · simp
            · exact ih _

lemma thermalizeLoop_ne_timeout (t1 : ℚ) :
    ∀ l : List (ℚ × Bool), thermalizeLoop t1 l ≠ .timeoutError := by
  intro l
  induction l with
  | nil => simp [thermalizeLoop]
  | cons q tl ih =>
      obtain ⟨clk, stop⟩ := q
      simp only [thermalizeLoop]
      split
      · split <;> simp [ih]
      · simp

lemma thermalizeLoop_ne_comm (t1 : ℚ) :
    ∀ l : List (ℚ × Bool), thermalizeLoop t1 l ≠ .commError := by
  intro l
  induction l with
  | nil => simp [thermalizeLoop]
  | cons q tl ih =>
      obtain ⟨clk, stop⟩ := q
      simp only [thermalizeLoop]
      split
      · split <;> simp [ih]
      · simp

lemma pollLoop_broke_iff_counts (p : WaitParams) (hT : p.timeout = 0)
    (hM : p.max_comm_errors = none) :
    ∀ (polls : List PollInput), (∀ i ∈ polls, i.stop = false) → ∀ st : LoopState,
      ((∃ a, pollLoop p st polls = .broke a) ↔
        (stableCounts p.error st.stable_intervals (polls.map (fun i => i.sample))).any
          (fun c => decide (number_of_intervals p ≤ (c : ℤ))) = true) := by
  intro polls
  induction polls with
  | nil => intro _ st; simp [pollLoop, stableCounts]
  | cons inp tl ih =>
      intro hstop st
      have h1 : inp.stop = false := hstop inp (by simp)
      have h2 : ∀ i ∈ tl, i.stop = false := fun i hi => hstop i (by simp [hi])
      simp only [pollLoop, List.map_cons, stableCounts, List.any_cons, hT, h1,
        commExceeded, hM]
      rw [← pollStep_stable p st inp]
      split
      · rename_i hbr
        simp [hbr]
      · rename_i hbr
        rw [if_neg (fun h => absurd h.1 (lt_irrefl (0 : ℚ)))]
        simp only [Bool.false_eq_true, if_false]
        rw [ih h2 (pollStep p st inp)]
        simp [hbr]

lemma pollLoop_timeout_of (p : WaitParams) (hM : p.max_comm_errors = none)
    (hTpos : 0 < p.timeout) :
    ∀ (polls : List PollInput) (st : LoopState), (∀ i ∈ polls, i.stop = false) →
      (stableCounts p.error st.stable_intervals (polls.map (fun i => i.sample))).all
        (fun c => decide ((c : ℤ) < number_of_intervals p)) = true →
      (∃ i ∈ polls, p.timeout < i.elapsed) →
      pollLoop p st polls = .timeoutError := by
  intro polls
  induction polls with
  | nil => intro st _ _ hex; simp at hex
  | cons inp tl ih =>
      intro st hstop hcounts hex
      have h1 : inp.stop = false := hstop inp (by simp)
      have h2 : ∀ i ∈ tl, i.stop = false := fun i hi => hstop i (by simp [hi])
      simp only [List.map_cons, stableCounts, List.all_cons, Bool.and_eq_true,
        decide_eq_true_eq] at hcounts
      obtain ⟨hhead, htail⟩ := hcounts
      rw [← pollStep_stable p st inp] at hhead htail
      simp only [pollLoop]
      rw [if_neg (by exact fun h => absurd hhead (not_lt.mpr h))]
      by_cases helapsed : p.timeout < inp.elapsed
      · rw [if_pos ⟨hTpos, helapsed⟩]
      · rw [if_neg (fun h => helapsed h.2)]
        simp only [commExceeded, hM, Bool.false_eq_true, if_false, h1]
        apply ih (pollStep p st inp) h2 htail
        rcases hex with ⟨i, hi, hlt⟩
        rcases List.mem_cons.mp hi with hi | hi
        · exact absurd (hi ▸ hlt) helapsed
        · exact ⟨i, hi, hlt⟩

lemma pollLoop_ne_comm_none (p : WaitParams) (hM : p.max_comm_errors = none) :
    ∀ (polls : List PollInput) (st : LoopState), pollLoop p st polls ≠ .commError := by
  intro polls
  induction polls with
  | nil => intro st; simp [pollLoop]
  | cons inp tl ih =>
      intro st
      simp only [pollLoop, commExceeded, hM]
      split
      · simp
      · split
        · simp
        · simp only [Bool.false_eq_true, if_false]
          split
          · simp
          · exact ih _

lemma pollLoop_ne_comm_budget (p : WaitParams) (m : ℕ)
    (hM : p.max_comm_errors = some m) :
    ∀ (polls : List PollInput) (st : LoopState),
      st.comm_errors + commFailures polls ≤ m → pollLoop p st polls ≠ .commError := by
  intro polls
  induction polls with
  | nil => intro st _; simp [pollLoop]
  | cons inp tl ih =>
      intro st hbudget
      have hcf : commFailures (inp :: tl) =
          (if inp.sample.isNone then 1 else 0) + commFailures tl := by
        simp only [commFailures, List.countP_cons]
        split <;> omega
      have hcomm : (pollStep p st inp).comm_errors + commFailures tl ≤ m := by
        rw [pollStep_comm]
        rw [hcf] at hbudget
        by_cases hn : inp.sample.isNone = true <;> simp [hn] at hbudget ⊢ <;> omega
      simp only [pollLoop]
      split
      · simp
      · split
        · simp
        · have hnotex : commExceeded p (pollStep p st inp) = false := by
            simp only [commExceeded, hM, decide_eq_false_iff_not, not_lt]
            omega
          rw [hnotex]
          simp only [Bool.false_eq_true, if_false]
          split
          · simp
          · exact ih _ hcomm

lemma pollLoop_comm_of (p : WaitParams) (m : ℕ) (hM : p.max_comm_errors = some m)
    (hT : p.timeout = 0) :
    ∀ (polls : List PollInput) (st : LoopState), (∀ i ∈ polls, i.stop = false) →
      (stableCounts p.error st.stable_intervals (polls.map (fun i => i.sample))).all
        (fun c => decide ((c : ℤ) < number_of_intervals p)) = true →
      st.comm_errors ≤ m → m < st.comm_errors + commFailures polls →
      pollLoop p st polls = .commError := by
  intro polls
  induction polls with
  | nil => intro st _ _ hle hgt; simp [commFailures] at hgt; omega
  | cons inp tl ih =>
      intro st hstop hcounts hle hgt
      have h1 : inp.stop = false := hstop inp (by simp)
      have h2 : ∀ i ∈ tl, i.stop = false := fun i hi => hstop i (by simp [hi])
      simp only [List.map_cons, stableCounts, List.all_cons, Bool.and_eq_true,
        decide_eq_true_eq] at hcounts
      obtain ⟨hhead, htail⟩ := hcounts
      rw [← pollStep_stable p st inp] at hhead htail
      have hcf : commFailures (inp :: tl) =
          (if inp.sample.isNone then 1 else 0) + commFailures tl := by
        simp only [commFailures, List.countP_cons]
        split <;> omega
      simp only [pollLoop]
      rw [if_neg (by exact fun h => absurd hhead (not_lt.mpr h))]
      rw [if_neg (by rw [hT]; exact fun h => absurd h.1 (lt_irrefl 0))]
      by_cases hexceed : commExceeded p (pollStep p st inp) = true
      · rw [hexceed]
        simp
      · rw [Bool.not_eq_true] at hexceed
        rw [hexceed]
        simp only [Bool.false_eq_true, if_false, h1]
        have hcm : (pollStep p st inp).comm_errors ≤ m := by
          simp only [commExceeded, hM, decide_eq_false_iff_not, not_lt] at hexceed
          exact hexceed
        apply ih (pollStep p st inp) h2 htail hcm
        rw [pollStep_comm]
        rw [hcf] at hgt
        by_cases hn : inp.sample.isNone = true <;> simp [hn] at hgt ⊢ <;> omega

lemma thermalizeLoop_success (t1 : ℚ) :
    ∀ l : List (ℚ × Bool), (∀ q ∈ l, q.2 = false) → (∃ q ∈ l, t1 ≤ q.1) →
      thermalizeLoop t1 l = .stabilizedThermalized := by
  intro l
  induction l with
  | nil => intro _ hex; simp at hex
  | cons q tl ih =>
      intro hstop hex
      obtain ⟨clk, stop⟩ := q
      have h1 : stop = false := hstop (clk, stop) (by simp)
      simp only [thermalizeLoop]
      by_cases hclk : clk < t1
      · rw [if_pos hclk, h1]
        simp only [Bool.false_eq_true, if_false]
        apply ih (fun i hi => hstop i (by simp [hi]))
        rcases hex with ⟨i, hi, hle⟩
        rcases List.mem_cons.mp hi with hi | hi
        · rw [hi] at hle; exact absurd hclk (not_lt.mpr hle)
        · exact ⟨i, hi, hle⟩
      · rw [if_neg hclk]

/-- Counter value after folding a sample stream. -/
def countAfter (err : ℚ) (c : ℕ) (xs : List (Option ℚ)) : ℕ :=
  xs.foldl (stepCount err) c

lemma stableCounts_append (err : ℚ) :
    ∀ (xs ys : List (Option ℚ)) (c : ℕ),
      stableCounts err c (xs ++ ys) =
        stableCounts err c xs ++ stableCounts err (countAfter err c xs) ys := by
  intro xs
  induction xs with
  | nil => intro ys c; simp [stableCounts, countAfter]
  | cons s tl ih =>
      intro ys c
      simp only [List.cons_append, stableCounts, countAfter, List.foldl_cons,
        List.append_eq]
      rw [ih]
      rfl

lemma counts_any_ok_to_full (err : ℚ) (N : ℤ) :
    ∀ (samples : List (Option ℚ)) (c : ℕ),
      (stableCounts err c ((samples.filterMap id).map some)).any
          (fun x => decide (N ≤ (x : ℤ))) = true →
      (stableCounts err c samples).any (fun x => decide (N ≤ (x : ℤ))) = true := by
  intro samples
  induction samples with
  | nil => intro c h; simpa using h
  | cons s tl ih =>
      intro c h
      cases s with
      | none =>
          rw [show List.filterMap id (none :: tl) = List.filterMap id tl from
            List.filterMap_cons_none rfl] at h
          simp only [stableCounts, stepCount, List.any_cons, Bool.or_eq_true]
          exact Or.inr (ih c h)
      | some v =>
          simp only [List.filterMap_cons_some, List.map_cons, stableCounts,
            List.any_cons, Bool.or_eq_true] at h ⊢
          rcases h with h | h
          · exact Or.inl h
          · exact Or.inr (ih _ h)
lemma counts_any_full_to_ok (err : ℚ) (N : ℤ) :
    ∀ (samples : List (Option ℚ)) (c : ℕ),
      (stableCounts err c samples).any (fun x => decide (N ≤ (x : ℤ))) = true →
      N ≤ (c : ℤ) ∨
        (stableCounts err c ((samples.filterMap id).map some)).any
          (fun x => decide (N ≤ (x : ℤ))) = true := by
  intro samples
  induction samples with
  | nil => intro c h; simp [stableCounts] at h
  | cons s tl ih =>
      intro c h
      cases s with
      | none =>
          simp only [stableCounts, stepCount, List.any_cons, Bool.or_eq_true,
            decide_eq_true_eq] at h
          rw [show List.filterMap id (none :: tl) = List.filterMap id tl from
            List.filterMap_cons_none rfl]
          rcases h with h | h
          · exact Or.inl h
          · exact ih c h
      | some v =>
          simp only [stableCounts, List.any_cons, Bool.or_eq_true] at h
          rw [show List.filterMap id (some v :: tl) = v :: List.filterMap id tl from
            List.filterMap_cons_some rfl]
          simp only [List.map_cons, stableCounts, List.any_cons, Bool.or_eq_true]
          rcases h with h | h
          · exact Or.inr (Or.inl h)
          · rcases ih _ h with h' | h'
            · simp only [decide_eq_true_eq] at h' ⊢
              exact Or.inr (Or.inl h')
            · exact Or.inr (Or.inr h')

lemma inband_counts_any (err : ℚ) (N : ℤ) :
    ∀ (seg : List ℚ) (c1 : ℕ), (∀ v ∈ seg, |v| < err) → N ≤ (c1 : ℤ) + seg.length →
      seg ≠ [] →
      (stableCounts err c1 (seg.map some)).any (fun x => decide (N ≤ (x : ℤ))) = true := by
  intro seg
  induction seg with
  | nil => intro c1 _ _ hne; exact absurd rfl hne
  | cons v tl ih =>
      intro c1 hband hlen _
      have hv : |v| < err := hband v (by simp)
      simp only [List.map_cons, stableCounts, stepCount, if_pos hv, List.any_cons,
        Bool.or_eq_true, decide_eq_true_eq]
      rcases List.eq_nil_or_concat tl with htl | _
      · subst htl
        left
        simp only [List.length_cons, List.length_nil] at hlen
        push_cast at hlen ⊢
        omega
      · by_cases hN : N ≤ (c1 : ℤ) + 1
        · exact Or.inl hN
        · right
          rcases List.exists_cons_of_ne_nil (by rintro rfl; simp at hlen; omega :
            tl ≠ []) with ⟨hd, tl', rfl⟩
          apply ih (c1 + 1) (fun x hx => hband x (by simp [hx]))
          · simp only [List.length_cons] at hlen ⊢
            push_cast at hlen ⊢
            omega
          · simp
lemma counts_any_to_run (err : ℚ) (N : ℤ) (hN : 1 ≤ N) :
    ∀ (vs : List ℚ) (c0 : ℕ),
      (stableCounts err c0 (vs.map some)).any (fun x => decide (N ≤ (x : ℤ))) = true →
      ∃ pre seg post, vs = pre ++ seg ++ post ∧ (∀ v ∈ seg, |v| < err) ∧
        (N ≤ (seg.length : ℤ) ∨ (pre = [] ∧ N ≤ (c0 : ℤ) + seg.length)) := by
  intro vs
  induction vs with
  | nil => intro c0 h; simp [stableCounts] at h
  | cons v tl ih =>
      intro c0 h
      by_cases hv : |v| < err
      · simp only [List.map_cons, stableCounts, stepCount, if_pos hv, List.any_cons,
          Bool.or_eq_true, decide_eq_true_eq] at h
        rcases h with h | h
        · refine ⟨[], [v], tl, by simp, by simp [hv], Or.inr ⟨rfl, ?_⟩⟩
          simp only [List.length_cons, List.length_nil]
          push_cast at h ⊢
          omega
        · rcases ih (c0 + 1) h with ⟨pre', seg', post', hdec, hband, hdisj⟩
          rcases hdisj with hlen | ⟨hpre, hlen⟩
          · exact ⟨v :: pre', seg', post', by simp [hdec], hband, Or.inl hlen⟩
          · subst hpre
            refine ⟨[], v :: seg', post', ?_, ?_, Or.inr ⟨rfl, ?_⟩⟩
            · simp only [List.nil_append] at hdec ⊢
              simp [hdec]
            · intro x hx
              rcases List.mem_cons.mp hx with rfl | hx
              · exact hv
              · exact hband x hx
            · simp only [List.length_cons]
              push_cast at hlen ⊢
              omega
      · simp only [List.map_cons, stableCounts, stepCount, if_neg hv, List.any_cons,
          Bool.or_eq_true, decide_eq_true_eq] at h
        rcases h with h | h
        · exact absurd h (by omega)
        · rcases ih 0 h with ⟨pre', seg', post', hdec, hband, hdisj⟩
          have hlen : N ≤ (seg'.length : ℤ) := by
            rcases hdisj with h' | ⟨_, h'⟩
            · exact h'
            · simpa using h'
          exact ⟨v :: pre', seg', post', by simp [hdec], hband, Or.inl hlen⟩

lemma counts_any_iff_specHasRun (err : ℚ) (N : ℤ) (hN : 1 ≤ N)
    (samples : List (Option ℚ)) :
    (stableCounts err 0 samples).any (fun x => decide (N ≤ (x : ℤ))) = true ↔
      specHasRun err N samples := by
  constructor
  · intro h
    rcases counts_any_full_to_ok err N samples 0 h with h0 | hok
    · exact absurd h0 (by push_cast; omega)
    · rcases counts_any_to_run err N hN (samples.filterMap id) 0 hok with
        ⟨pre, seg, post, hdec, hband, hdisj⟩
      have hlen : N ≤ (seg.length : ℤ) := by
        rcases hdisj with h' | ⟨_, h'⟩
        · exact h'
        · simpa using h'
      exact ⟨pre, seg, post, hdec, hband, hlen⟩
  · rintro ⟨pre, seg, post, hdec, hband, hlen⟩
    apply counts_any_ok_to_full
    rw [hdec, List.map_append, List.map_append, stableCounts_append err,
      List.any_append, stableCounts_append err, List.any_append]
    have hne : seg ≠ [] := by
      rintro rfl
      simp only [List.length_nil, Nat.cast_zero] at hlen
      omega
    have hmid := inband_counts_any err N seg (countAfter err 0 (pre.map some)) hband
      (le_trans hlen (by omega)) hne
    simp [hmid]
lemma tableWrites_shape :
    ∀ (l : List (ℚ × ℚ × ℚ)) (k : ℕ), ∃ f g h : ℕ → ℚ,
      tableWrites l k = (List.range l.length).flatMap
        (fun i => slotBlock (k + i) (f (k + i)) (g (k + i)) (h (k + i))) := by
  intro l
  induction l with
  | nil => exact fun k => ⟨fun _ => 0, fun _ => 0, fun _ => 0, by simp [tableWrites]⟩
  | cons trip tl ih =>
      intro k
      obtain ⟨a, b, c⟩ := trip
      obtain ⟨f', g', h', hih⟩ := ih (k + 1)
      refine ⟨fun n => if n ≤ k then a else f' n, fun n => if n ≤ k then b else g' n,
        fun n => if n ≤ k then c else h' n, ?_⟩
      have hzero : ∀ i : ℕ, ((k + (i + 1) ≤ k) ↔ False) :=
        fun i => ⟨fun hcontra => by omega, False.elim⟩
      simp only [tableWrites, hih, List.length_cons, List.range_succ_eq_map,
        List.flatMap_cons, Nat.add_zero, le_refl, if_pos, List.flatMap_map,
        Function.comp]
      congr 1
      refine List.flatMap_congr (fun i _ => ?_)
      have harg : k + 1 + i = k + (i + 1) := by omega
      rw [harg]
      simp only [Nat.succ_eq_add_one, hzero, if_false]
lemma interpResampled_length (numSteps : ℕ) (stepsArr arr : List ℚ) :
    (interpResampled numSteps stepsArr arr).length = stepsArr.length := by
  simp [interpResampled]

lemma program_sweep_ok_decomp (mode : String) (temps sweepT holdT : List ℚ)
    (steps? : Option ℕ) (trace : List WriteEvent)
    (h : program_sweep mode temps sweepT holdT steps? = (trace, none)) :
    ∃ a b c : List ℚ, a.length = 16 ∧ b.length = 16 ∧ c.length = 16 ∧
      trace = .sweepStatus 0 :: tableWrites (a.zip (b.zip c)) 1 := by
  unfold program_sweep at h
  dsimp only at h
  split at h
  · split at h
    · simp at h
    · split at h
      · simp at h
      · split at h
        · simp at h
        · split at h
          · simp at h
          · split at h
            · simp at h
            · rename_i hmode ht0 hs0 hh0 hpad hidx
              obtain ⟨htr, -⟩ := Prod.mk.injEq .. ▸ h
              rw [← htr]
              set L := (interpResampled (steps?.getD temps.length)
                (linspace 1 (steps?.getD temps.length) (steps?.getD temps.length))
                temps).length with hL
              have hLs := hL
              rw [interpResampled_length] at hLs
              refine ⟨_, _, _, ?_, ?_, ?_, rfl⟩
              · simp only [List.length_append, List.length_replicate,
                  interpResampled_length]
                rw [← hLs]
                omega
              · simp only [List.length_append, List.length_replicate,
                  interpResampled_length]
                rw [← hLs]
                omega
              · simp only [List.length_append, List.length_replicate,
                  interpResampled_length]
                rw [← hLs]
                omega
  · simp at h

lemma linspace_length (start stop : ℚ) (num : ℕ) : (linspace start stop num).length = num := by
  unfold linspace
  split
  · simp [*]
  · split
    · simp [*]
    · rw [List.length_map, List.length_range]

lemma wait_eq_timeout_iff (p : WaitParams) (polls : List PollInput) (bt : ℚ)
    (tl : List (ℚ × Bool)) :
    wait_for_temperature p polls bt tl = .timeoutError ↔
      pollLoop p ⟨0, 0, 0⟩ polls = .timeoutError := by
  cases hres : pollLoop p ⟨0, 0, 0⟩ polls with
  | broke a =>
      by_cases ha : a = 0 <;>
        simp [wait_for_temperature, hres, ha, thermalizeLoop_ne_timeout _ tl]
  | timeoutError => simp [wait_for_temperature, hres]
  | commError => simp [wait_for_temperature, hres]
  | cancelled => simp [wait_for_temperature, hres]
  | exhausted st => simp [wait_for_temperature, hres]

lemma wait_eq_comm_iff (p : WaitParams) (polls : List PollInput) (bt : ℚ)
    (tl : List (ℚ × Bool)) :
    wait_for_temperature p polls bt tl = .commError ↔
      pollLoop p ⟨0, 0, 0⟩ polls = .commError := by
  cases hres : pollLoop p ⟨0, 0, 0⟩ polls with
  | broke a =>
      by_cases ha : a = 0 <;>
        simp [wait_for_temperature, hres, ha, thermalizeLoop_ne_comm _ tl]
  | timeoutError => simp [wait_for_temperature, hres]
  | commError => simp [wait_for_temperature, hres]
  | cancelled => simp [wait_for_temperature, hres]
  | exhausted st => simp [wait_for_temperature, hres]

/-! ### Claim theorems -/

set_option maxRecDepth 10000

/-- C1: in a remote control mode, `program_sweep([100,200,300], sweep_time=5,
hold_time=2, steps=3)` programs slots 1..3 with the triples
`(100,5,2),(200,5,2),(300,5,2)` and slots 4..16 with `(300,0,0)`: the
setpoint column is constant-padded with the last interpolated setpoint and
the time columns are zero-padded up to exactly 16 slots. -/
theorem sweep_program_roundtrip (mode : String) (h : mode.startsWith "R" = true) :
    program_sweep mode [100, 200, 300] [5] [2] (some 3) =
      (WriteEvent.sweepStatus 0 ::
        (slotBlock 1 100 5 2 ++ slotBlock 2 200 5 2 ++ slotBlock 3 300 5 2 ++
          (List.range 13).flatMap (fun i => slotBlock (4 + i) 300 0 0)), none) := by
  unfold program_sweep
  rw [h]
  with_unfolding_all decide

theorem sweep_program_roundtrip_witness :
    program_sweep "RU" [100, 200, 300] [5] [2] (some 3) =
      (WriteEvent.sweepStatus 0 ::
        (slotBlock 1 100 5 2 ++ slotBlock 2 200 5 2 ++ slotBlock 3 300 5 2 ++
          (List.range 13).flatMap (fun i => slotBlock (4 + i) 300 0 0)), none) :=
  sweep_program_roundtrip "RU" startsWith_R_RU

/-- C2: when the `control_mode` getter reports a LOCAL state (`LL` or `LU`),
`program_sweep` raises the not-in-remote-mode `AttributeError` and issues no
write at all: no `sweep_status` write, no pointer write, no `sweep_table`
write. -/
theorem program_sweep_local_raises (reply : List Char) (mode : String)
    (temperatures sweep_time hold_time : List ℚ) (steps? : Option ℕ)
    (hreply : control_mode_get reply = some mode)
    (hlocal : mode = "LL" ∨ mode = "LU") :
    program_sweep mode temperatures sweep_time hold_time steps? =
      ([], some .notRemote) := by
  have hs : mode.startsWith "R" = false := by
    rcases hlocal with rfl | rfl
    · exact startsWith_R_LL
    · exact startsWith_R_LU
  unfold program_sweep
  rw [hs]
  simp

theorem program_sweep_local_raises_witness :
    program_sweep "LL" [100] [5] [2] none = ([], some SweepError.notRemote) :=
  program_sweep_local_raises ("X1A0C0".data) "LL" [100] [5] [2] none
    (by decide) (Or.inl rfl)

/-- C10: a remote-mode `program_sweep` call with `steps > 16` fails while
padding the interpolated arrays (the pad amount `16 - size` is negative),
after the `sweep_status = 0` write but before any `x_pointer`, `y_pointer`
or `sweep_table` write; in particular no pointer outside 1..16 is ever
written. -/
theorem oversized_steps_pad_error (mode : String)
    (temperatures sweep_time hold_time : List ℚ) (s : ℕ)
    (hmode : mode.startsWith "R" = true) (hs : 16 < s)
    (ht : temperatures ≠ []) (hsw : sweep_time ≠ []) (hh : hold_time ≠ []) :
    program_sweep mode temperatures sweep_time hold_time (some s) =
      ([.sweepStatus 0], some .negativePad) := by
  unfold program_sweep
  rw [hmode, if_pos rfl]
  dsimp only
  rw [if_neg (fun hcontra => ht (List.length_eq_zero.mp hcontra)),
    if_neg (fun hcontra => hsw (List.length_eq_zero.mp hcontra)),
    if_neg (fun hcontra => hh (List.length_eq_zero.mp hcontra)),
    if_pos (by rw [interpResampled_length, linspace_length]; simp only [Option.getD_some]; omega)]

theorem oversized_steps_pad_error_witness :
    program_sweep "RU" [100] [5] [2] (some 17) =
      ([WriteEvent.sweepStatus 0], some SweepError.negativePad) :=
  oversized_steps_pad_error "RU" [100] [5] [2] 17 startsWith_R_RU (by decide)
    (by decide) (by decide) (by decide)

/-- C3 (counterexample): the claim computes the required run length as
`round(stability_interval / check_interval)`, but the code uses
`int(stability_interval / check_interval)` (truncation).  With
`stability_interval = 7` and `check_interval = 2` the code needs only
`int(3.5) = 3` in-band samples, so three in-band samples make the loop exit
successfully even though no run of `round(3.5) = 4` exists. -/
theorem stability_round_requirement_false :
    pollLoop ⟨1, 0, 2, 7, 0, none⟩ ⟨0, 0, 0⟩
        [⟨some 0, 0, false⟩, ⟨some 0, 0, false⟩, ⟨some 0, 0, false⟩] = .broke 0 ∧
      ¬ specHasRun 1 (roundHalfEven ((7 : ℚ) / 2)) [some 0, some 0, some 0] := by
  constructor
  · with_unfolding_all decide
  · rintro ⟨pre, seg, post, hdec, hband, hlen⟩
    have h4 : roundHalfEven ((7 : ℚ) / 2) = 4 := by with_unfolding_all decide
    rw [h4] at hlen
    have h3 : (3 : ℕ) = pre.length + (seg.length + post.length) := by
      simpa using congrArg List.length hdec
    omega

/-- C3 (amended): with timeout and the communication-error budget disabled
and `should_stop` never firing, the polling loop of `wait_for_temperature`
exits successfully (reaches its `break`) iff the sample sequence contains a
run of at least `int(stability_interval / check_interval)` (truncating
division, as the code's `int()` does — not `round`) consecutive
successfully-read samples with `|temp_error| < error`, failed reads being
transparent to the run. -/
theorem wait_stability_run_iff (p : WaitParams) (polls : List PollInput)
    (hT : p.timeout = 0) (hM : p.max_comm_errors = none)
    (hS : ∀ i ∈ polls, i.stop = false) (hN : 1 ≤ number_of_intervals p) :
    ((∃ a, pollLoop p ⟨0, 0, 0⟩ polls = .broke a) ↔
      specHasRun p.error (number_of_intervals p) (polls.map (fun i => i.sample))) := by
  rw [pollLoop_broke_iff_counts p hT hM polls hS ⟨0, 0, 0⟩]
  exact counts_any_iff_specHasRun p.error (number_of_intervals p) hN _

theorem wait_stability_run_iff_witness :
    specHasRun 1 (number_of_intervals ⟨1, 0, 1, 2, 0, none⟩) [some 0, some 0] :=
  (wait_stability_run_iff ⟨1, 0, 1, 2, 0, none⟩ [⟨some 0, 0, false⟩, ⟨some 0, 0, false⟩]
      rfl rfl (by decide) (by with_unfolding_all decide)).mp
    ⟨0, by with_unfolding_all decide⟩

/-- C4: a `wait_for_temperature` call with `timeout = 0` never raises the
`TimeoutError`; with `timeout = T > 0`, a call whose sample source never
achieves the required in-band run (and is neither cancelled nor aborted by
the comm-error budget) raises the `TimeoutError` once a poll sees an elapsed
time exceeding `T`. -/
theorem wait_timeout_behaviour (p : WaitParams) (polls : List PollInput)
    (bt : ℚ) (tl : List (ℚ × Bool)) :
    (p.timeout = 0 → wait_for_temperature p polls bt tl ≠ .timeoutError) ∧
    (0 < p.timeout → p.max_comm_errors = none → (∀ i ∈ polls, i.stop = false) →
      (stableCounts p.error 0 (polls.map (fun i => i.sample))).all
        (fun c => decide ((c : ℤ) < number_of_intervals p)) = true →
      (∃ i ∈ polls, p.timeout < i.elapsed) →
      wait_for_temperature p polls bt tl = .timeoutError) := by
  constructor
  · intro hT
    rw [Ne, wait_eq_timeout_iff]
    exact pollLoop_ne_timeout p hT polls _
  · intro hTpos hM hS hcounts hex
    rw [wait_eq_timeout_iff]
    exact pollLoop_timeout_of p hM hTpos polls ⟨0, 0, 0⟩ hS hcounts hex

theorem wait_timeout_behaviour_witness :
    wait_for_temperature ⟨1, 0, 1, 10, 0, none⟩ [⟨some 5, 0, false⟩] 0 [] ≠
        .timeoutError ∧
      wait_for_temperature ⟨1, 1, 1, 10, 0, none⟩ [⟨some 5, 2, false⟩] 0 [] =
        .timeoutError :=
  ⟨(wait_timeout_behaviour ⟨1, 0, 1, 10, 0, none⟩ [⟨some 5, 0, false⟩] 0 []).1 rfl,
   (wait_timeout_behaviour ⟨1, 1, 1, 10, 0, none⟩ [⟨some 5, 2, false⟩] 0 []).2
     (by with_unfolding_all decide) rfl (by decide) (by with_unfolding_all decide)
     ⟨⟨some 5, 2, false⟩, List.mem_singleton.mpr rfl, by with_unfolding_all decide⟩⟩

/-- C5: with `max_comm_errors = None` failed reads never abort the call;
with `max_comm_errors = m` the call never raises the communication-error
`ValueError` while the number of failed reads stays at or below `m`, and
raises it exactly once that count exceeds `m` (for a call that never
stabilizes, is never cancelled and has the timeout disabled). -/
theorem wait_comm_error_budget (p : WaitParams) (polls : List PollInput)
    (bt : ℚ) (tl : List (ℚ × Bool)) :
    (p.max_comm_errors = none → wait_for_temperature p polls bt tl ≠ .commError) ∧
    (∀ m, p.max_comm_errors = some m → commFailures polls ≤ m →
      wait_for_temperature p polls bt tl ≠ .commError) ∧
    (∀ m, p.max_comm_errors = some m → p.timeout = 0 →
      (∀ i ∈ polls, i.stop = false) →
      (stableCounts p.error 0 (polls.map (fun i => i.sample))).all
        (fun c => decide ((c : ℤ) < number_of_intervals p)) = true →
      m < commFailures polls →
      wait_for_temperature p polls bt tl = .commError) := by
  refine ⟨?_, ?_, ?_⟩
  · intro hM
    rw [Ne, wait_eq_comm_iff]
    exact pollLoop_ne_comm_none p hM polls _
  · intro m hM hcf
    rw [Ne, wait_eq_comm_iff]
    exact pollLoop_ne_comm_budget p m hM polls ⟨0, 0, 0⟩ (by simpa using hcf)
  · intro m hM hT hS hcounts hcf
    rw [wait_eq_comm_iff]
    exact pollLoop_comm_of p m hM hT polls ⟨0, 0, 0⟩ hS hcounts (Nat.zero_le m)
      (by simpa using hcf)

theorem wait_comm_error_budget_witness :
    wait_for_temperature ⟨1, 0, 1, 10, 0, none⟩ [⟨none, 0, false⟩] 0 [] ≠
        .commError ∧
      wait_for_temperature ⟨1, 0, 1, 10, 0, some 2⟩ [⟨none, 0, false⟩] 0 [] ≠
        .commError ∧
      wait_for_temperature ⟨1, 0, 1, 10, 0, some 0⟩ [⟨none, 0, false⟩] 0 [] =
        .commError :=
  ⟨(wait_comm_error_budget ⟨1, 0, 1, 10, 0, none⟩ [⟨none, 0, false⟩] 0 []).1 rfl,
   (wait_comm_error_budget ⟨1, 0, 1, 10, 0, some 2⟩ [⟨none, 0, false⟩] 0 []).2.1 2 rfl
     (by decide),
   (wait_comm_error_budget ⟨1, 0, 1, 10, 0, some 0⟩ [⟨none, 0, false⟩] 0 []).2.2 0 rfl
     rfl (by decide) (by with_unfolding_all decide) (by decide)⟩

/-- C6: when the polling loop breaks with `attempt == 0` (no sample was ever
out of band), the call returns immediately with no thermalization wait;
when it breaks with `attempt ≠ 0`, the call goes through the thermalization
wait, polling `should_stop` each `check_interval`, and (with `should_stop`
false) returns once a clock reading reaches `t1 = breakTime +
thermalize_interval`. -/
theorem wait_thermalize_dependence (p : WaitParams) (polls : List PollInput)
    (bt : ℚ) (tl : List (ℚ × Bool)) :
    (pollLoop p ⟨0, 0, 0⟩ polls = .broke 0 →
      wait_for_temperature p polls bt tl = .stabilizedImmediate) ∧
    (∀ a, pollLoop p ⟨0, 0, 0⟩ polls = .broke a → a ≠ 0 →
      (∀ q ∈ tl, q.2 = false) → (∃ q ∈ tl, bt + p.thermalize_interval ≤ q.1) →
      wait_for_temperature p polls bt tl = .stabilizedThermalized) := by
  constructor
  · intro h
    simp [wait_for_temperature, h]
  · intro a h ha hstop hex
    simp only [wait_for_temperature, h]
    rw [if_neg ha]
    exact thermalizeLoop_success _ tl hstop hex

theorem wait_thermalize_dependence_witness :
    wait_for_temperature ⟨1, 0, 1, 1, 5, none⟩ [⟨some 0, 0, false⟩] 0 [(100, false)] =
        .stabilizedImmediate ∧
      wait_for_temperature ⟨1, 0, 1, 1, 5, none⟩
          [⟨some 5, 0, false⟩, ⟨some 0, 0, false⟩] 0 [(100, false)] =
        .stabilizedThermalized :=
  ⟨(wait_thermalize_dependence ⟨1, 0, 1, 1, 5, none⟩ [⟨some 0, 0, false⟩] 0
      [(100, false)]).1 (by with_unfolding_all decide),
   (wait_thermalize_dependence ⟨1, 0, 1, 1, 5, none⟩
      [⟨some 5, 0, false⟩, ⟨some 0, 0, false⟩] 0 [(100, false)]).2 1
     (by with_unfolding_all decide) (by decide) (by decide)
     ⟨(100, false), List.mem_singleton.mpr rfl, by with_unfolding_all decide⟩⟩

/-- C7 (counterexample): `should_stop` would return true at the poll
cadence, but the timeout check precedes the `should_stop` poll, so with the
timeout already exceeded at that iteration the call raises `TimeoutError`
instead of returning normally — the cancellation is not honoured "regardless
of the configured timeout". -/
theorem cancellation_timeout_counterexample :
    wait_for_temperature ⟨1, 1, 1, 10, 0, none⟩ [⟨some 5, 2, true⟩] 0 [] =
        .timeoutError ∧
      ([⟨some 5, 2, true⟩] : List PollInput).all (fun i => i.stop) = true := by
  constructor
  · with_unfolding_all decide
  · decide

/-- C7 (amended): whenever the polling loop actually reaches the
`should_stop()` poll of an iteration — the stability break, the timeout
check and the comm-error check of that iteration have not fired — and
`should_stop` returns true there, the call returns normally (cancellation,
not an error) at that poll point. -/
theorem wait_cancellation_at_poll (p : WaitParams) (pre : List PollInput)
    (inp : PollInput) (rest : List PollInput) (st : LoopState) (bt : ℚ)
    (tl : List (ℚ × Bool))
    (hpre : pollLoop p ⟨0, 0, 0⟩ pre = .exhausted st)
    (hbr : ((pollStep p st inp).stable_intervals : ℤ) < number_of_intervals p)
    (htm : ¬(0 < p.timeout ∧ p.timeout < inp.elapsed))
    (hcm : commExceeded p (pollStep p st inp) = false)
    (hstop : inp.stop = true) :
    wait_for_temperature p (pre ++ inp :: rest) bt tl = .cancelledWhileWaiting := by
  have hloop : pollLoop p ⟨0, 0, 0⟩ (pre ++ inp :: rest) = .cancelled := by
    rw [pollLoop_append, hpre]
    show pollLoop p st (inp :: rest) = .cancelled
    simp only [pollLoop]
    rw [if_neg (not_le.mpr hbr), if_neg htm, hcm]
    simp [hstop]
  simp [wait_for_temperature, hloop]

theorem wait_cancellation_at_poll_witness :
    wait_for_temperature ⟨1, 100, 1, 10, 0, none⟩ ([] ++ ⟨some 5, 1, true⟩ :: []) 0 [] =
      .cancelledWhileWaiting :=
  wait_cancellation_at_poll ⟨1, 100, 1, 10, 0, none⟩ [] ⟨some 5, 1, true⟩ [] ⟨0, 0, 0⟩
    0 [] rfl (by with_unfolding_all decide) (by with_unfolding_all decide) rfl rfl

/-- C8 (counterexample): the `temperature_error` getter strips exactly one
status letter (`float(v[1:])`), so the reply `R1234.5` decodes to `1234.5`,
not to `234.5` as the claim's example states. -/
theorem reply_prefix_example_false :
    temperature_error_get ("R1234.5".data) = some (1234.5 : ℚ) ∧
      (1234.5 : ℚ) ≠ (234.5 : ℚ) := by
  constructor
  · have h : temperature_error_get ("R1234.5".data) = some (mkRat 12345 10) := by
      decide
    rw [h, Rat.mkRat_eq_div]
    norm_num
  · norm_num

/-- C8 (amended): the getter of the `temperature_error` measurement strips
the one-character status-letter prefix of the reply and parses the
remainder; in particular `R1234.5` decodes to `1234.5`. -/
theorem temperature_error_strips_status_letter :
    (∀ (c : Char) (cs : List Char), temperature_error_get (c :: cs) = pyFloat? cs) ∧
      temperature_error_get ("R1234.5".data) = some (1234.5 : ℚ) := by
  constructor
  · intro c cs
    rfl
  · have h : temperature_error_get ("R1234.5".data) = some (mkRat 12345 10) := by
      decide
    rw [h, Rat.mkRat_eq_div]
    norm_num

/-- The trace of writes of the documentation example sweep. -/
def sampleSweepTrace : List WriteEvent :=
  (program_sweep "RU" [100, 200, 300] [5] [2] (some 3)).1

/-- C9: every `program_sweep` call that reaches the table-writing phase
emits, after the `sweep_status = 0` write, exactly the blocks for slots
1..16 in increasing order, each of the form `x_pointer = line`, then
`y_pointer = 1`/`sweep_table`, `y_pointer = 2`/`sweep_table`,
`y_pointer = 3`/`sweep_table`; a `sweep_table` write is never issued before
its slot's `x_pointer` and field's `y_pointer` writes. -/
theorem table_write_order (mode : String) (temperatures sweep_time hold_time : List ℚ)
    (steps? : Option ℕ) (trace : List WriteEvent)
    (h : program_sweep mode temperatures sweep_time hold_time steps? = (trace, none)) :
    ∃ f g k : ℕ → ℚ,
      trace = WriteEvent.sweepStatus 0 ::
        (List.range 16).flatMap
          (fun i => slotBlock (1 + i) (f (1 + i)) (g (1 + i)) (k (1 + i))) := by
  obtain ⟨a, b, c, ha, hb, hc, htr⟩ :=
    program_sweep_ok_decomp mode temperatures sweep_time hold_time steps? trace h
  obtain ⟨f, g, k, hshape⟩ := tableWrites_shape (a.zip (b.zip c)) 1
  refine ⟨f, g, k, ?_⟩
  rw [htr, hshape]
  have hlen : (a.zip (b.zip c)).length = 16 := by
    simp [ha, hb, hc]
  rw [hlen]

theorem table_write_order_witness :
    ∃ f g k : ℕ → ℚ,
      sampleSweepTrace = WriteEvent.sweepStatus 0 ::
        (List.range 16).flatMap
          (fun i => slotBlock (1 + i) (f (1 + i)) (g (1 + i)) (k (1 + i))) :=
  table_write_order "RU" [100, 200, 300] [5] [2] (some 3) sampleSweepTrace
    (by with_unfolding_all decide)

end ITC503
